import Mathlib

/-!
Shallow embedding of the mastermind repository (src/validate.py,
src/generate.py, src/mastermind.py): the feedback oracle `validate_solution`,
the consistency checker `valid_possibility`, the combination sampler
(`generate_combination`, `all_choices`) and the search-engine state updates
(`InMemoryPruner.add_clue`, `generate_random_valid_guess`).
-/

/-- Python enum `GuessResult` (validate.py / mastermind.py). -/
inductive GuessResult
  | INCORRECT
  | ONLY_COLOR_CORRECT
  | ONLY_POSITION_CORRECT
  | EXACT_MATCH
deriving DecidableEq, Repr

/-- The colour alphabet used by `main` in mastermind.py (`OPTIONS`). -/
inductive Colour
  | black | gray | white | red | green | blue | yellow | purple
deriving DecidableEq, Repr

universe u

variable {α : Type u} [DecidableEq α]

/-- `identify_exact_matches` (validate.py): the positions at which solution
and guess hold the same value.  Python intersects the sets of (index, value)
pairs of the two sequences, so only indices valid in both sequences qualify;
the set comes back in arbitrary order and the caller sorts it, so we produce
the ascending list of matching positions directly. -/
def identify_exact_matches (solution guess : List α) : List Nat :=
  (List.range (min solution.length guess.length)).filter
    (fun i => decide (solution[i]? = guess[i]?))

/-- `identify_colour_matches` (validate.py): the set of distinct values
present in both lists (Python set intersection), represented as the
deduplicated list of values of `solution` that also occur in `guess`. -/
def identify_colour_matches (solution guess : List α) : List α :=
  solution.dedup.filter (fun v => decide (v ∈ guess))

/-- The deletion loop of `validate_solution` (validate.py):
`for pos in reversed(match_idxs): del remaining[pos]`, with `match_idxs`
in ascending order, so positions are deleted from the largest down. -/
def erase_positions (idxs : List Nat) (l : List α) : List α :=
  idxs.reverse.foldl (fun acc pos => acc.eraseIdx pos) l

/-- `validate_solution` (validate.py / mastermind.py): the feedback oracle. -/
def validate_solution (solution guess : List α) : List GuessResult :=
  if solution = guess then
    List.replicate guess.length GuessResult.EXACT_MATCH
  else
    let match_idxs := identify_exact_matches solution guess
    let remaining_solution := erase_positions match_idxs solution
    let remaining_guess := erase_positions match_idxs guess
    let match_cols := identify_colour_matches remaining_solution remaining_guess
    List.replicate match_idxs.length GuessResult.EXACT_MATCH ++
      List.replicate match_cols.length GuessResult.ONLY_COLOR_CORRECT

/-- `valid_possibility` (validate.py / mastermind.py): the consistency
checker, `list(prev_result) == list(validate_solution(prev_guess, next_guess))`. -/
def valid_possibility (prev_guess : List α) (prev_result : List GuessResult)
    (next_guess : List α) : Bool :=
  decide (prev_result = validate_solution prev_guess next_guess)

/-- Claim-side quantity: the number of positions at which the two sequences
hold the same value (the spec's exact-match count `e`). -/
def exact_match_count (s g : List α) : Nat :=
  (List.range (min s.length g.length)).countP (fun i => decide (s[i]? = g[i]?))

/-- Claim-side quantity: the number of distinct values shared by two lists
(one per shared distinct value, regardless of multiplicity). -/
def shared_distinct_count (l₁ l₂ : List α) : Nat :=
  (identify_colour_matches l₁ l₂).length

/-- Claim-side quantity: the spec's colour count `c`, the number of distinct
values shared by the two residual sequences obtained by deleting the
exact-match positions from both sequences. -/
def residual_shared_count (s g : List α) : Nat :=
  shared_distinct_count (erase_positions (identify_exact_matches s g) s)
    (erase_positions (identify_exact_matches s g) g)

/-- Outcome of a core operation that may terminate the whole process:
`processExit msg` models Python `print(msg); exit()`. -/
inductive CoreResult (σ : Type u)
  | proceed (s : σ)
  | processExit (msg : String)
deriving DecidableEq

/-- The pruning assignment inside `InMemoryPruner.add_clue` (generate.py /
mastermind.py): keep exactly the candidates consistent with the new clue. -/
def prune_choices (clue : List α × List GuessResult)
    (choices : List (List α)) : List (List α) :=
  choices.filter (fun opt => valid_possibility clue.1 clue.2 opt)

/-- `InMemoryPruner.add_clue` (generate.py / mastermind.py): prune
`all_valid_choices` with the newest clue; if the list empties, the code
prints `Logical inconsistency` and calls `exit()`, terminating the process. -/
def InMemoryPruner.add_clue (clue : List α × List GuessResult)
    (choices : List (List α)) : CoreResult (List (List α)) :=
  let pruned := prune_choices clue choices
  if pruned.length = 0 then CoreResult.processExit "Logical inconsistency"
  else CoreResult.proceed pruned

/-- The cumulative effect on `all_valid_choices` of a sequence of
`InMemoryPruner.add_clue` pruning steps. -/
def prune_all (clues : List (List α × List GuessResult))
    (init : List (List α)) : List (List α) :=
  clues.foldl (fun st c => prune_choices c st) init

/-- The retry loop of `generate_random_valid_guess` (generate.py /
mastermind.py) in bounded mode (`max_tries is not None`).  `gen i` is the
combination drawn by the sampler on iteration `i`; `count` draws have been
made so far.  Each iteration draws a guess, checks it against every clue,
increments the counter and, exactly as in the source, sets the guess to
`None` and stops as soon as `count > max_tries` — this test comes before the
loop condition, so it fires even when the freshly drawn guess is consistent.
The `fuel` argument only bounds the recursion: starting from
`max_tries + 1` it cannot reach `0` before the counter check fires. -/
def grvg_go (gen : Nat → List α) (clues : List (List α × List GuessResult))
    (max_tries : Nat) : Nat → Nat → Option (List α) × Nat
  | 0, count => (none, count)
  | fuel + 1, count =>
      let guess := gen count
      let guess_valid := clues.all (fun c => valid_possibility c.1 c.2 guess)
      if max_tries < count + 1 then (none, count + 1)
      else if guess_valid then (some guess, count + 1)
      else grvg_go gen clues max_tries fuel (count + 1)

/-- `generate_random_valid_guess` (generate.py / mastermind.py) in bounded
mode: returns the pair `(guess, count)`, where a `none` guess is the
failure value produced when the try counter exceeds `max_tries`. -/
def generate_random_valid_guess (gen : Nat → List α)
    (clues : List (List α × List GuessResult)) (max_tries : Nat) :
    Option (List α) × Nat :=
  grvg_go gen clues max_tries (max_tries + 1) 0

/-- The sampling loop of `generate_combination` (generate.py /
mastermind.py).  `rnd` is the random source: on iteration `i` Python draws
`choice_idx = randint(0, len(options) - 1)`, modelled as `rnd i %
opts.length`, which ranges over exactly the valid indices as `rnd` varies;
when `opts` is empty, `randint(0, -1)` raises `ValueError: empty range for
randrange() (0, 0, 0)`, modelled as the error case. -/
def gc_go (rnd : Nat → Nat) (duplicates : Bool) :
    Nat → Nat → List α → List α → Except String (List α)
  | _, 0, _, combination => Except.ok combination
  | i, k + 1, opts, combination =>
      if h : opts.length = 0 then
        Except.error "empty range for randrange()"
      else
        let idx := rnd i % opts.length
        let value := opts.get ⟨idx, Nat.mod_lt _ (Nat.pos_of_ne_zero h)⟩
        gc_go rnd duplicates (i + 1) k
          (if duplicates then opts else opts.eraseIdx idx)
          (combination ++ [value])

/-- `generate_combination` (generate.py / mastermind.py): guard for the
non-duplicate configuration error, then the sampling loop. -/
def generate_combination (rnd : Nat → Nat) (options : List α)
    (length : Nat) (duplicates : Bool) : Except String (List α) :=
  if duplicates = false ∧ options.length < length then
    Except.error "Not enough options provided to generate non-duplicate combinations"
  else
    gc_go rnd duplicates 0 length options []

/-- The set of tuples formed by the values at `length` distinct indices of
`pool`, in every order (`itertools.permutations(pool, length)` viewed as a
set): every permutation of every length-`length` sublist of `pool`. -/
def permutations_len (pool : List α) (length : Nat) : List (List α) :=
  (List.sublistsLen length pool).flatMap List.permutations

/-- `all_choices` (generate.py / mastermind.py):
`set(itertools.permutations(options * length if duplicates else options,
length))`, where `options * length` is `options` repeated `length` times. -/
def all_choices (options : List α) (length : Nat) (duplicates : Bool) :
    Finset (List α) :=
  let all_options :=
    if duplicates then (List.replicate length options).flatten else options
  (permutations_len all_options length).toFinset

/-! ## Structural lemmas about the oracle -/

/-- Folding `eraseIdx` over a strictly decreasing list of valid positions
removes one element per position. -/
theorem foldl_eraseIdx_length (ddxs : List Nat) (l : List α)
    (hd : ddxs.Pairwise (· > ·)) (hlt : ∀ i ∈ ddxs, i < l.length) :
    (ddxs.foldl (fun acc pos => acc.eraseIdx pos) l).length =
      l.length - ddxs.length := by
  induction ddxs generalizing l with
  | nil => simp
  | cons d ds ih =>
      simp only [List.foldl_cons, List.length_cons]
      have hdl : d < l.length := hlt d (List.mem_cons.2 (Or.inl rfl))
      have h1 : (l.eraseIdx d).length = l.length - 1 := by
        rw [List.length_eraseIdx, if_pos hdl]
      have h2 : ∀ i ∈ ds, i < (l.eraseIdx d).length := by
        intro i hi
        have : i < d := (List.pairwise_cons.1 hd).1 i hi
        omega
      rw [ih (l.eraseIdx d) (List.Pairwise.of_cons hd) h2, h1]
      omega

/-- `erase_positions` over an ascending list of valid positions removes one
element per position. -/
theorem erase_positions_length (idxs : List Nat) (l : List α)
    (ha : idxs.Pairwise (· < ·)) (hlt : ∀ i ∈ idxs, i < l.length) :
    (erase_positions idxs l).length = l.length - idxs.length := by
  unfold erase_positions
  rw [foldl_eraseIdx_length idxs.reverse l (List.pairwise_reverse.2 ha)
      (fun i hi => hlt i (List.mem_reverse.1 hi))]
  rw [List.length_reverse]

/-- The exact-match positions form a strictly increasing list. -/
theorem identify_exact_matches_pairwise (s g : List α) :
    (identify_exact_matches s g).Pairwise (· < ·) :=
  List.Pairwise.sublist (List.filter_sublist _) (List.pairwise_lt_range _)

/-- Every exact-match position is a valid index of both sequences. -/
theorem identify_exact_matches_lt (s g : List α) :
    ∀ i ∈ identify_exact_matches s g, i < min s.length g.length := by
  intro i hi
  exact List.mem_range.1 (List.mem_filter.1 hi).1

/-- The claim-side exact-match count is the number of matched positions the
oracle collects. -/
theorem exact_match_count_eq_length (s g : List α) :
    exact_match_count s g = (identify_exact_matches s g).length :=
  List.countP_eq_length_filter _ _

/-- When the two sequences are equal, every position is an exact match. -/
theorem identify_exact_matches_self (s : List α) :
    identify_exact_matches s s = List.range s.length := by
  unfold identify_exact_matches
  rw [min_self]
  exact List.filter_eq_self.2 (fun a _ => by simp)

/-- Deleting every position of a list leaves nothing. -/
theorem erase_positions_range_self (l : List α) :
    erase_positions (List.range l.length) l = [] := by
  have h := erase_positions_length (List.range l.length) l
      (List.pairwise_lt_range _) (fun i hi => List.mem_range.1 hi)
  rw [List.length_range, Nat.sub_self] at h
  exact List.length_eq_zero.1 h

/-- The oracle's output always consists of the claim-side exact-match count of
`EXACT_MATCH` outcomes followed by the claim-side shared-residual-colour count
of `ONLY_COLOR_CORRECT` outcomes; in particular the `solution == guess`
short-circuit branch agrees with the general computation. -/
theorem validate_solution_shape (s g : List α) :
    validate_solution s g =
      List.replicate (exact_match_count s g) GuessResult.EXACT_MATCH ++
      List.replicate (residual_shared_count s g) GuessResult.ONLY_COLOR_CORRECT := by
  unfold validate_solution
  by_cases h : s = g
  · subst h
    rw [if_pos rfl]
    have h1 : exact_match_count s s = s.length := by
      unfold exact_match_count
      rw [min_self, List.countP_eq_length.2 (fun a _ => by simp), List.length_range]
    have h2 : residual_shared_count s s = 0 := by
      unfold residual_shared_count shared_distinct_count
      rw [identify_exact_matches_self, erase_positions_range_self]
      rfl
    rw [h1, h2, List.replicate_zero, List.append_nil]
  · rw [if_neg h]
    have h2 : residual_shared_count s g =
        (identify_colour_matches (erase_positions (identify_exact_matches s g) s)
          (erase_positions (identify_exact_matches s g) g)).length := rfl
    rw [exact_match_count_eq_length, h2]

/-- The matched positions do not depend on the argument order. -/
theorem identify_exact_matches_symm (s g : List α) :
    identify_exact_matches s g = identify_exact_matches g s := by
  unfold identify_exact_matches
  rw [min_comm]
  exact List.filter_congr (fun i _ => decide_eq_decide.2 eq_comm)

/-- The number of shared distinct values does not depend on the argument
order. -/
theorem identify_colour_matches_length_symm (l₁ l₂ : List α) :
    (identify_colour_matches l₁ l₂).length =
      (identify_colour_matches l₂ l₁).length := by
  apply List.Perm.length_eq
  apply (List.perm_ext_iff_of_nodup ((List.nodup_dedup l₁).filter _)
      ((List.nodup_dedup l₂).filter _)).2
  intro a
  simp only [identify_colour_matches, List.mem_filter, List.mem_dedup,
    decide_eq_true_eq]
  exact and_comm

/-- Claim-side exact-match count is symmetric. -/
theorem exact_match_count_symm (s g : List α) :
    exact_match_count s g = exact_match_count g s := by
  rw [exact_match_count_eq_length, exact_match_count_eq_length,
    identify_exact_matches_symm]

/-- Claim-side shared-residual-colour count is symmetric. -/
theorem residual_shared_count_symm (s g : List α) :
    residual_shared_count s g = residual_shared_count g s := by
  unfold residual_shared_count shared_distinct_count
  rw [identify_exact_matches_symm]
  exact identify_colour_matches_length_symm _ _

/-- The oracle is symmetric in its two arguments. -/
theorem validate_solution_symm (s g : List α) :
    validate_solution s g = validate_solution g s := by
  rw [validate_solution_shape, validate_solution_shape,
    exact_match_count_symm, residual_shared_count_symm]

/-! ## Claim theorems: the oracle and the consistency checker -/

/-- C1: for every pair of equal-length sequences, `validate_solution` returns
exactly `e` copies of `EXACT_MATCH` followed by `c` copies of
`ONLY_COLOR_CORRECT`, where `e` counts positions with equal values and `c`
counts the distinct values shared by the residual sequences obtained by
deleting the exact-match positions; neither `ONLY_POSITION_CORRECT` nor
`INCORRECT` ever appears.  In particular the clue for solution
`[red, white, white, white]` and guess `[purple, purple, white, yellow]`
is `[EXACT_MATCH]`. -/
theorem validate_solution_exact_then_colour :
    (∀ (β : Type) [DecidableEq β] (s g : List β), s.length = g.length →
      validate_solution s g =
        List.replicate (exact_match_count s g) GuessResult.EXACT_MATCH ++
        List.replicate (residual_shared_count s g) GuessResult.ONLY_COLOR_CORRECT ∧
      GuessResult.ONLY_POSITION_CORRECT ∉ validate_solution s g ∧
      GuessResult.INCORRECT ∉ validate_solution s g) ∧
    validate_solution [Colour.red, Colour.white, Colour.white, Colour.white]
        [Colour.purple, Colour.purple, Colour.white, Colour.yellow] =
      [GuessResult.EXACT_MATCH] := by
  constructor
  · intro β _ s g _
    refine ⟨validate_solution_shape s g, ?_, ?_⟩ <;>
    · rw [validate_solution_shape]
      simp [List.mem_append, List.mem_replicate]
  · rfl

/-- Witness for C1 at a concrete input. -/
theorem validate_solution_exact_then_colour_witness :
    ([0, 1, 1] : List Nat).length = [1, 1, 0].length ∧
      validate_solution ([0, 1, 1] : List Nat) [1, 1, 0] =
        List.replicate (exact_match_count ([0, 1, 1] : List Nat) [1, 1, 0])
          GuessResult.EXACT_MATCH ++
        List.replicate (residual_shared_count ([0, 1, 1] : List Nat) [1, 1, 0])
          GuessResult.ONLY_COLOR_CORRECT :=
  ⟨rfl, (validate_solution_exact_then_colour.1 Nat [0, 1, 1] [1, 1, 0] rfl).1⟩

/-- C2: the true solution is always consistent with any clue produced from
it: `valid_possibility guess (validate_solution solution guess) solution`
holds for equal-length sequences. -/
theorem valid_possibility_self_consistent (s g : List α)
    (h : s.length = g.length) :
    valid_possibility g (validate_solution s g) s = true := by
  unfold valid_possibility
  rw [validate_solution_symm s g]
  simp

/-- Witness for C2 at a concrete input. -/
theorem valid_possibility_self_consistent_witness :
    ([0, 1, 2] : List Nat).length = [2, 1, 0].length ∧
      valid_possibility ([2, 1, 0] : List Nat)
        (validate_solution ([0, 1, 2] : List Nat) [2, 1, 0]) [0, 1, 2] = true :=
  ⟨rfl, valid_possibility_self_consistent [0, 1, 2] [2, 1, 0] rfl⟩

/-- C3: `valid_possibility prior_guess prior_clue candidate` holds exactly
when evaluating the candidate as the solution against the prior guess,
`validate_solution candidate prior_guess`, reproduces `prior_clue` under
ordered-list equality. -/
theorem valid_possibility_iff_evaluate (pg : List α) (pc : List GuessResult)
    (cand : List α) (h : pg.length = cand.length) :
    valid_possibility pg pc cand = true ↔ validate_solution cand pg = pc := by
  unfold valid_possibility
  rw [decide_eq_true_eq, validate_solution_symm pg cand]
  exact eq_comm

/-- Witness for C3 at a concrete input. -/
theorem valid_possibility_iff_evaluate_witness :
    ([0, 1] : List Nat).length = [1, 0].length ∧
      (valid_possibility ([0, 1] : List Nat)
          [GuessResult.ONLY_COLOR_CORRECT, GuessResult.ONLY_COLOR_CORRECT]
          [1, 0] = true ↔
        validate_solution ([1, 0] : List Nat) [0, 1] =
          [GuessResult.ONLY_COLOR_CORRECT, GuessResult.ONLY_COLOR_CORRECT]) :=
  ⟨rfl, valid_possibility_iff_evaluate [0, 1]
    [GuessResult.ONLY_COLOR_CORRECT, GuessResult.ONLY_COLOR_CORRECT] [1, 0] rfl⟩

/-! ## Claim theorems: the pruning search engine -/

/-- C4: each `add_clue` pruning step leaves `all_valid_choices` a sublist of
its previous value (so its length never grows and nothing excluded is ever
re-admitted), and when every clue so far was produced by `validate_solution`
against one fixed solution from the initial list, that solution survives
every pruning step. -/
theorem prune_monotone_and_solution_retained :
    (∀ (clue : List α × List GuessResult) (choices : List (List α)),
        (prune_choices clue choices).Sublist choices ∧
        (prune_choices clue choices).length ≤ choices.length ∧
        ∀ x, x ∉ choices → x ∉ prune_choices clue choices) ∧
    (∀ (clues : List (List α × List GuessResult)) (init : List (List α))
        (sol : List α), sol ∈ init →
        (∀ c ∈ clues, c.2 = validate_solution sol c.1) →
        sol ∈ prune_all clues init) := by
  constructor
  · intro clue choices
    refine ⟨List.filter_sublist _, (List.filter_sublist _).length_le, ?_⟩
    intro x hx hmem
    exact hx ((List.filter_sublist _).subset hmem)
  · intro clues
    induction clues with
    | nil => intro init sol hs _; exact hs
    | cons c cs ih =>
        intro init sol hs hc
        have h1 : sol ∈ prune_choices c init := by
          refine List.mem_filter.2 ⟨hs, ?_⟩
          rw [hc c (List.mem_cons.2 (Or.inl rfl))]
          unfold valid_possibility
          rw [validate_solution_symm]
          simp
        exact ih (prune_choices c init) sol h1
          (fun d hd => hc d (List.mem_cons.2 (Or.inr hd)))

/-- Witness for C4 at a concrete input. -/
theorem prune_monotone_and_solution_retained_witness :
    ([1, 0] : List Nat) ∈ [[0, 1], [1, 0]] ∧
    (∀ c ∈ [(([0, 1] : List Nat), validate_solution ([1, 0] : List Nat) [0, 1])],
      c.2 = validate_solution ([1, 0] : List Nat) c.1) ∧
    ([1, 0] : List Nat) ∈
      prune_all [(([0, 1] : List Nat), validate_solution ([1, 0] : List Nat) [0, 1])]
        [[0, 1], [1, 0]] :=
  ⟨by decide, by decide,
    prune_monotone_and_solution_retained.2
      [(([0, 1] : List Nat), validate_solution ([1, 0] : List Nat) [0, 1])]
      [[0, 1], [1, 0]] [1, 0] (by decide) (by decide)⟩

/-- When every draw up to the bound is inconsistent with some clue, the
bounded retry loop runs the counter past `max_tries` and reports failure. -/
theorem grvg_go_exhaust (gen : Nat → List α)
    (clues : List (List α × List GuessResult)) (max_tries : Nat) :
    ∀ (fuel count : Nat), count + fuel = max_tries + 1 →
      (∀ i, i ≤ max_tries →
        clues.all (fun c => valid_possibility c.1 c.2 (gen i)) = false) →
      grvg_go gen clues max_tries fuel count = (none, max_tries + 1) := by
  intro fuel
  induction fuel with
  | zero =>
      intro count hcount _
      rw [Nat.add_zero] at hcount
      rw [hcount]
      rfl
  | succ n ih =>
      intro count hcount hall
      simp only [grvg_go]
      by_cases hlt : max_tries < count + 1
      · rw [if_pos hlt]
        have hceq : count + 1 = max_tries + 1 := by omega
        rw [hceq]
      · rw [if_neg hlt]
        rw [hall count (by omega)]
        simp only [Bool.false_eq_true, if_false]
        exact ih (count + 1) (by omega) hall

/-- C5: with `max_tries = 0` and a non-empty clue history, unless the first
draw happens to be consistent with every clue, the result is a `none` guess;
and in bounded mode, exhausting `max_tries` without a consistent draw yields
the distinct failure value `(none, max_tries + 1)`, never a guess. -/
theorem generate_random_valid_guess_reports_failure :
    (∀ (gen : Nat → List α) (clues : List (List α × List GuessResult)),
        clues ≠ [] →
        clues.all (fun c => valid_possibility c.1 c.2 (gen 0)) = false →
        (generate_random_valid_guess gen clues 0).1 = none) ∧
    (∀ (gen : Nat → List α) (clues : List (List α × List GuessResult))
        (max_tries : Nat),
        (∀ i, i ≤ max_tries →
          clues.all (fun c => valid_possibility c.1 c.2 (gen i)) = false) →
        generate_random_valid_guess gen clues max_tries =
          (none, max_tries + 1)) := by
  constructor
  · intro gen clues _ _
    rfl
  · intro gen clues max_tries hall
    exact grvg_go_exhaust gen clues max_tries (max_tries + 1) 0 (by omega) hall

/-- Witness for C5 at a concrete input. -/
theorem generate_random_valid_guess_reports_failure_witness :
    ([(([0] : List Nat), ([] : List GuessResult))] ≠ []) ∧
    ([(([0] : List Nat), ([] : List GuessResult))].all
      (fun c => valid_possibility c.1 c.2 ((fun _ => [0]) 0)) = false) ∧
    (generate_random_valid_guess (fun _ => ([0] : List Nat))
      [([0], [])] 0).1 = none ∧
    generate_random_valid_guess (fun _ => ([0] : List Nat))
      [([0], [])] 2 = (none, 3) :=
  ⟨by decide, by decide,
    generate_random_valid_guess_reports_failure.1 (fun _ => [0]) [([0], [])]
      (by decide) (by decide),
    generate_random_valid_guess_reports_failure.2 (fun _ => [0]) [([0], [])] 2
      (fun i _ => rfl)⟩

/-! ## Claim theorems: error behaviour of the core -/

/-- C6 counterexample: on a clue inconsistent with every candidate the pruner
does not surface an error value to its caller — it takes the
process-termination path (`print('Logical inconsistency'); exit()`),
contradicting that the core never terminates the whole process itself. -/
theorem add_clue_terminates_process_counterexample :
    InMemoryPruner.add_clue ([Colour.red], ([] : List GuessResult))
        [[Colour.red]] =
      CoreResult.processExit "Logical inconsistency" := by
  rfl

/-- C6 (amended): when pruning on a new clue empties the candidate list,
`add_clue` never hands back a candidate state — it prints
`Logical inconsistency` and terminates the whole process from within the
core; conversely any state it does hand back is the non-empty pruned list. -/
theorem add_clue_empty_prune_exits (clue : List α × List GuessResult)
    (choices : List (List α)) :
    (prune_choices clue choices = [] →
      InMemoryPruner.add_clue clue choices =
        CoreResult.processExit "Logical inconsistency") ∧
    ∀ l, InMemoryPruner.add_clue clue choices = CoreResult.proceed l →
      l = prune_choices clue choices ∧ l ≠ [] := by
  unfold InMemoryPruner.add_clue
  constructor
  · intro h
    rw [if_pos (by rw [h]; rfl)]
  · intro l hl
    by_cases h : (prune_choices clue choices).length = 0
    · rw [if_pos h] at hl
      exact absurd hl (by simp)
    · rw [if_neg h] at hl
      simp only [CoreResult.proceed.injEq] at hl
      refine ⟨hl.symm, ?_⟩
      rw [hl] at h
      exact fun hnil => h (by rw [hnil]; rfl)

/-- Witness for C6 (amended) at a concrete input. -/
theorem add_clue_empty_prune_exits_witness :
    prune_choices (([0] : List Nat), ([] : List GuessResult)) [[0]] = [] ∧
      InMemoryPruner.add_clue (([0] : List Nat), ([] : List GuessResult)) [[0]] =
        CoreResult.processExit "Logical inconsistency" :=
  ⟨by decide,
    (add_clue_empty_prune_exits (([0] : List Nat), ([] : List GuessResult))
      [[0]]).1 (by decide)⟩

/-- C7 counterexample: calling the oracle with sequences of different lengths
does not fail: it silently returns a clue, here `[EXACT_MATCH]` for a
length-1 solution against a length-2 guess. -/
theorem validate_solution_mismatched_lengths_counterexample :
    validate_solution [Colour.red] [Colour.red, Colour.white] =
      [GuessResult.EXACT_MATCH] := by
  rfl

/-- C7 (amended): mismatched-length inputs are silently coerced, not
rejected: `validate_solution` raises no error and returns the clue computed
from the positions below the shorter length. -/
theorem validate_solution_mismatched_lengths_coerced (s g : List α)
    (h : s.length ≠ g.length) :
    validate_solution s g =
      List.replicate (exact_match_count s g) GuessResult.EXACT_MATCH ++
      List.replicate (residual_shared_count s g) GuessResult.ONLY_COLOR_CORRECT :=
  validate_solution_shape s g

/-- Witness for C7 (amended) at a concrete input. -/
theorem validate_solution_mismatched_lengths_coerced_witness :
    ([0] : List Nat).length ≠ [0, 1].length ∧
      validate_solution ([0] : List Nat) [0, 1] =
        List.replicate (exact_match_count ([0] : List Nat) [0, 1])
          GuessResult.EXACT_MATCH ++
        List.replicate (residual_shared_count ([0] : List Nat) [0, 1])
          GuessResult.ONLY_COLOR_CORRECT :=
  ⟨by decide, validate_solution_mismatched_lengths_coerced [0] [0, 1] (by decide)⟩

/-- C8: for equal-length distinct sequences, the clue holds at most `length`
outcomes, and its `EXACT_MATCH` count plus its `ONLY_COLOR_CORRECT` count is
at most `length`. -/
theorem validate_solution_outcome_bound (s g : List α)
    (hne : s ≠ g) (hlen : s.length = g.length) :
    (validate_solution s g).length ≤ g.length ∧
    (validate_solution s g).count GuessResult.EXACT_MATCH +
      (validate_solution s g).count GuessResult.ONLY_COLOR_CORRECT ≤
      g.length := by
  have he : exact_match_count s g ≤ s.length := by
    rw [exact_match_count_eq_length]
    calc (identify_exact_matches s g).length
        ≤ (List.range (min s.length g.length)).length :=
          (List.filter_sublist _).length_le
      _ = min s.length g.length := List.length_range _
      _ ≤ s.length := min_le_left _ _
  have hrs : (erase_positions (identify_exact_matches s g) s).length =
      s.length - (identify_exact_matches s g).length :=
    erase_positions_length _ _ (identify_exact_matches_pairwise s g)
      (fun i hi =>
        lt_of_lt_of_le (identify_exact_matches_lt s g i hi) (min_le_left _ _))
  have hc : residual_shared_count s g ≤
      s.length - exact_match_count s g := by
    rw [exact_match_count_eq_length]
    unfold residual_shared_count shared_distinct_count identify_colour_matches
    calc ((erase_positions (identify_exact_matches s g) s).dedup.filter
          (fun v => decide (v ∈ erase_positions (identify_exact_matches s g) g))).length
        ≤ (erase_positions (identify_exact_matches s g) s).dedup.length :=
          (List.filter_sublist _).length_le
      _ ≤ (erase_positions (identify_exact_matches s g) s).length :=
          (List.dedup_sublist _).length_le
      _ = _ := hrs
  rw [validate_solution_shape]
  constructor
  · rw [List.length_append, List.length_replicate, List.length_replicate]
    omega
  · rw [List.count_append, List.count_append,
      List.count_replicate, List.count_replicate,
      List.count_replicate, List.count_replicate]
    simp only [beq_iff_eq, reduceCtorEq, if_true, if_false, reduceIte]
    omega

/-- Witness for C8 at a concrete input. -/
theorem validate_solution_outcome_bound_witness :
    (([0, 1] : List Nat) ≠ [1, 0]) ∧ ([0, 1] : List Nat).length = [1, 0].length ∧
      (validate_solution ([0, 1] : List Nat) [1, 0]).length ≤ [1, 0].length :=
  ⟨by decide, rfl,
    (validate_solution_outcome_bound ([0, 1] : List Nat) [1, 0]
      (by decide) rfl).1⟩

/-! ## Counting the enumerated choice space -/

/-- Membership in the r-permutation list: exactly the length-`r` lists whose
multiset of values fits inside the pool. -/
theorem mem_permutations_len (pool l : List α) (r : Nat) :
    l ∈ permutations_len pool r ↔ l.length = r ∧ l.Subperm pool := by
  unfold permutations_len
  simp only [List.mem_flatMap, List.mem_sublistsLen, List.mem_permutations]
  constructor
  · rintro ⟨s, ⟨hsub, hlen⟩, hperm⟩
    exact ⟨hperm.length_eq.trans hlen, ⟨s, hperm.symm, hsub⟩⟩
  · rintro ⟨hlen, t, hperm, hsub⟩
    exact ⟨t, ⟨hsub, hperm.length_eq.trans hlen⟩, hperm.symm⟩

/-- Counting occurrences in `options * r` (the pool used when duplicates are
allowed). -/
theorem count_flatten_replicate (r : Nat) (options : List α) (x : α) :
    ((List.replicate r options).flatten).count x = r * options.count x := by
  induction r with
  | zero => simp
  | succ n ih =>
      rw [List.replicate_succ, List.flatten_cons, List.count_append, ih,
        Nat.succ_mul]
      omega

/-- With duplicates allowed, the enumerated set holds exactly the length-`r`
lists over the alphabet. -/
theorem mem_all_choices_dup (options : List α) (r : Nat) (l : List α) :
    l ∈ all_choices options r true ↔ l.length = r ∧ ∀ x ∈ l, x ∈ options := by
  unfold all_choices
  simp only [reduceIte, List.mem_toFinset]
  rw [mem_permutations_len]
  constructor
  · rintro ⟨hlen, hsub⟩
    refine ⟨hlen, fun x hx => ?_⟩
    rcases List.mem_flatten.1 (hsub.subset hx) with ⟨L, hL, hxL⟩
    rwa [List.eq_of_mem_replicate hL] at hxL
  · rintro ⟨hlen, hmem⟩
    refine ⟨hlen, List.subperm_ext_iff.2 fun x hx => ?_⟩
    have h1 : List.count x l ≤ r := hlen ▸ List.count_le_length x l
    have h2 : 1 ≤ options.count x := List.count_pos_iff.2 (hmem x hx)
    rw [count_flatten_replicate]
    calc List.count x l ≤ r * 1 := by omega
      _ ≤ r * options.count x := Nat.mul_le_mul_left r h2

/-- With duplicates allowed and pairwise-distinct options, the enumerated
set has exactly `|options| ^ r` elements. -/
theorem card_all_choices_dup (options : List α) (hn : options.Nodup) :
    ∀ r : Nat, (all_choices options r true).card = options.length ^ r := by
  intro r
  induction r with
  | zero =>
      have h : all_choices options 0 true = {([] : List α)} := by
        ext l
        rw [mem_all_choices_dup, Finset.mem_singleton]
        constructor
        · rintro ⟨hlen, _⟩
          exact List.length_eq_zero.1 hlen
        · rintro rfl
          exact ⟨rfl, by simp⟩
      rw [h, Finset.card_singleton, pow_zero]
  | succ n ih =>
      have h : all_choices options (n + 1) true =
          (options.toFinset ×ˢ all_choices options n true).image
            (fun p => p.1 :: p.2) := by
        ext l
        rw [mem_all_choices_dup]
        simp only [Finset.mem_image, Finset.mem_product, List.mem_toFinset]
        constructor
        · rintro ⟨hlen, hmem⟩
          cases l with
          | nil => exact absurd hlen (by simp)
          | cons a t =>
              refine ⟨(a, t), ⟨hmem a (List.mem_cons.2 (Or.inl rfl)), ?_⟩, rfl⟩
              rw [mem_all_choices_dup]
              exact ⟨by simpa using hlen,
                fun x hx => hmem x (List.mem_cons.2 (Or.inr hx))⟩
        · rintro ⟨⟨a, t⟩, ⟨ha, ht⟩, rfl⟩
          rw [mem_all_choices_dup] at ht
          refine ⟨by simp [ht.1], fun x hx => ?_⟩
          rcases List.mem_cons.1 hx with hxa | hxt
          · rw [hxa]; exact ha
          · exact ht.2 x hxt
      have hinj : Function.Injective (fun p : α × List α => p.1 :: p.2) := by
        intro p q hpq
        cases p
        cases q
        simp only [List.cons.injEq] at hpq
        exact Prod.ext hpq.1 hpq.2
      rw [h, Finset.card_image_of_injective _ hinj, Finset.card_product,
        List.toFinset_card_of_nodup hn, ih, pow_succ]
      ring

/-- A sublist of a duplicate-free list is recovered by filtering the list
down to the sublist's members. -/
theorem filter_mem_of_sublist {s l : List α} (h : s.Sublist l) :
    l.Nodup → l.filter (fun x => decide (x ∈ s)) = s := by
  induction h with
  | slnil => intro _; rfl
  | @cons l₁ l₂ a hsl ih =>
      intro hl
      rcases List.nodup_cons.1 hl with ⟨hna, hnl⟩
      have ha : a ∉ l₁ := fun hx => hna (hsl.subset hx)
      rw [List.filter_cons, if_neg (by simpa using ha), ih hnl]
  | @cons₂ l₁ l₂ a hsl ih =>
      intro hl
      rcases List.nodup_cons.1 hl with ⟨hna, hnl⟩
      rw [List.filter_cons, if_pos (by simp)]
      have hstep : ∀ x ∈ l₂,
          (decide (x ∈ a :: l₁)) = (decide (x ∈ l₁)) := by
        intro x hx
        have hxa : x ≠ a := fun hEq => hna (hEq ▸ hx)
        exact decide_eq_decide.2 (by simp [List.mem_cons, hxa])
      rw [List.filter_congr hstep, ih hnl]

/-- Two sublists of a duplicate-free list that are permutations of each
other are equal. -/
theorem eq_of_perm_sublists {s₁ s₂ l : List α} (hl : l.Nodup)
    (h₁ : s₁.Sublist l) (h₂ : s₂.Sublist l) (hp : s₁.Perm s₂) : s₁ = s₂ := by
  rw [← filter_mem_of_sublist h₁ hl, ← filter_mem_of_sublist h₂ hl]
  exact List.filter_congr fun x _ =>
    decide_eq_decide.2 ⟨fun hx => hp.subset hx, fun hx => hp.symm.subset hx⟩

/-- Over a duplicate-free pool the r-permutation list has no duplicates. -/
theorem nodup_permutations_len {pool : List α} (h : pool.Nodup) (r : Nat) :
    (permutations_len pool r).Nodup := by
  unfold permutations_len
  rw [List.nodup_flatMap]
  constructor
  · intro s hs
    exact List.nodup_permutations s ((List.mem_sublistsLen.1 hs).1.nodup h)
  · refine List.Pairwise.imp_of_mem ?_ (List.nodup_sublistsLen r h)
    intro s₁ s₂ hs₁ hs₂ hne
    intro x hx₁ hx₂
    have hp₁ := List.mem_permutations.1 hx₁
    have hp₂ := List.mem_permutations.1 hx₂
    exact hne (eq_of_perm_sublists h (List.mem_sublistsLen.1 hs₁).1
      (List.mem_sublistsLen.1 hs₂).1 (hp₁.symm.trans hp₂))

/-- Without duplicates and with pairwise-distinct options, the enumerated
set has exactly `|options|.descFactorial r` elements (the falling-factorial
count `|options|! / (|options| - r)!`). -/
theorem card_all_choices_nodup (options : List α) (h : options.Nodup)
    (r : Nat) :
    (all_choices options r false).card = options.length.descFactorial r := by
  unfold all_choices
  simp only [Bool.false_eq_true, if_false]
  rw [List.toFinset_card_of_nodup (nodup_permutations_len h r)]
  unfold permutations_len
  rw [List.length_flatMap]
  have hmap : List.map (List.length ∘ List.permutations)
      (List.sublistsLen r options) =
      List.replicate (options.length.choose r) r.factorial := by
    rw [List.eq_replicate_iff]
    constructor
    · rw [List.length_map, List.length_sublistsLen]
    · intro b hb
      rcases List.mem_map.1 hb with ⟨s, hs, rfl⟩
      have hsl : s.length = r := (List.mem_sublistsLen.1 hs).2
      simp [Function.comp, List.length_permutations, hsl]
  rw [hmap, List.sum_replicate, smul_eq_mul,
    Nat.descFactorial_eq_factorial_mul_choose]
  ring

/-- Without duplicates, the enumerated set holds exactly the length-`r`
lists whose multiset of values fits inside `options`. -/
theorem mem_all_choices_nodup (options : List α) (r : Nat) (l : List α) :
    l ∈ all_choices options r false ↔ l.length = r ∧ l.Subperm options := by
  unfold all_choices
  simp only [Bool.false_eq_true, if_false, List.mem_toFinset]
  exact mem_permutations_len options l r

/-- C9 counterexample: with a repeated value in `options`, the enumerated
set deduplicates identical arrangements, so its size falls short of both the
claimed `|options| ^ length` and the claimed falling-factorial count: for
`options = [0, 0]` and `length = 1` the set is `{[0]}` of size 1, not 2. -/
theorem all_choices_card_counterexample :
    (all_choices ([0, 0] : List Nat) 1 true).card ≠
      ([0, 0] : List Nat).length ^ 1 ∧
    (all_choices ([0, 0] : List Nat) 1 false).card ≠
      Nat.factorial ([0, 0] : List Nat).length /
        Nat.factorial (([0, 0] : List Nat).length - 1) := by
  have htrue : all_choices ([0, 0] : List Nat) 1 true = {[0]} := by
    ext l
    rw [mem_all_choices_dup, Finset.mem_singleton]
    constructor
    · rintro ⟨hlen, hmem⟩
      match l, hlen with
      | [x], _ =>
          have hx := hmem x (by simp)
          simp only [List.mem_cons, List.not_mem_nil, or_false] at hx
          simp [hx.elim id id]
    · rintro rfl
      exact ⟨rfl, by intro x hx; simp at hx; simp [hx]⟩
  have hfalse : all_choices ([0, 0] : List Nat) 1 false = {[0]} := by
    ext l
    rw [mem_all_choices_nodup, Finset.mem_singleton]
    constructor
    · rintro ⟨hlen, hsub⟩
      match l, hlen with
      | [x], _ =>
          have hx := hsub.subset (List.mem_cons.2 (Or.inl rfl))
          simp only [List.mem_cons, List.not_mem_nil, or_false] at hx
          simp [hx.elim id id]
    · rintro rfl
      exact ⟨rfl, ⟨[0], List.Perm.refl _, (List.nil_sublist [0]).cons₂ 0⟩⟩
  rw [htrue, hfalse]
  decide

/-- C9 (amended): for an `options` list with pairwise-distinct values,
`all_choices` returns exactly `|options| ^ length` distinct sequences with
duplicates allowed and exactly the falling-factorial count
`|options|.descFactorial length` without; when `options` itself repeats a
value, identical arrangements are deduplicated and the sets can be smaller
than these formulas. -/
theorem all_choices_card (options : List α) (h : options.Nodup) (len : Nat) :
    (all_choices options len true).card = options.length ^ len ∧
    (all_choices options len false).card =
      options.length.descFactorial len :=
  ⟨card_all_choices_dup options h len, card_all_choices_nodup options h len⟩

/-- Witness for C9 (amended) at a concrete input. -/
theorem all_choices_card_witness :
    ([0, 1] : List Nat).Nodup ∧
      ((all_choices ([0, 1] : List Nat) 2 true).card =
          ([0, 1] : List Nat).length ^ 2 ∧
        (all_choices ([0, 1] : List Nat) 2 false).card =
          ([0, 1] : List Nat).length.descFactorial 2) :=
  ⟨by decide, all_choices_card [0, 1] (by decide) 2⟩

/-- C10: with an empty options list, a positive length and duplicates
allowed, `generate_combination` always fails: the failure comes from drawing
a random index over an empty range (`randint(0, -1)`), not from the explicit
configuration guard (which covers only `duplicates = False` with too few
options), and no sequence is ever returned. -/
theorem generate_combination_empty_options_fails (rnd : Nat → Nat)
    (len : Nat) (h : 1 ≤ len) :
    generate_combination rnd ([] : List α) len true =
      Except.error "empty range for randrange()" ∧
    generate_combination rnd ([] : List α) len true ≠
      Except.error
        "Not enough options provided to generate non-duplicate combinations" ∧
    ∀ l, generate_combination rnd ([] : List α) len true ≠ Except.ok l := by
  obtain ⟨k, rfl⟩ : ∃ k, len = k + 1 := ⟨len - 1, by omega⟩
  have h1 : generate_combination rnd ([] : List α) (k + 1) true =
      Except.error "empty range for randrange()" := by
    unfold generate_combination
    rw [if_neg (by simp)]
    rfl
  refine ⟨h1, ?_, ?_⟩
  · rw [h1]
    intro hEq
    simp only [Except.error.injEq] at hEq
    exact absurd hEq (by decide)
  · intro l hl
    rw [h1] at hl
    exact absurd hl (by simp)

/-- Witness for C10 at a concrete input. -/
theorem generate_combination_empty_options_fails_witness :
    1 ≤ 4 ∧
      generate_combination (fun _ => 0) ([] : List Nat) 4 true =
        Except.error "empty range for randrange()" :=
  ⟨by decide,
    (generate_combination_empty_options_fails (fun _ => 0) 4 (by decide)).1⟩
